import Mathlib

/-!
Verification development for the cairo-vm-base type-marshalling layer.

The Rust sources under src/src/types define five value kinds (Felt, Uint256,
Uint256Bits32, UInt384, KeccakBytes) with string parsing (from_any_str /
hex_bytes_padded), VM-memory codecs (from_memory / to_memory over the cairo-vm
VirtualMachine) and serde text serialization. This file is a shallow embedding
of those functions: big integers become Nat, byte vectors become List Nat
(each element a byte value below 256), field elements are Nat values reduced
modulo the Stark prime, the VM memory is an association list from relocatable
addresses to cells, and fallible Rust code returns Except/Option. Rust panics
(assert-style aborts, slice-index underflow) are modelled as Option.none or a
distinguished Except.error, noted at each definition.
-/

/-- The Stark field prime used by cairo-vm's Felt252 type. -/
def STARK_PRIME : Nat := 2 ^ 251 + 17 * 2 ^ 192 + 1

/-- Value of a hex digit character, as the Rust hex crate accepts them
(0-9, a-f, A-F); none on any other character. -/
def hexDigitVal (c : Char) : Option Nat :=
  if '0' ≤ c ∧ c ≤ '9' then some (c.toNat - 48)
  else if 'a' ≤ c ∧ c ≤ 'f' then some (c.toNat - 97 + 10)
  else if 'A' ≤ c ∧ c ≤ 'F' then some (c.toNat - 65 + 10)
  else none

/-- Model of hex::decode on an even-length digit string: consecutive pairs of
hex digits become bytes; an odd-length input or an invalid digit fails.
(The call site in hex_bytes_padded always passes an even-length string.) -/
def hexPairsDecode : List Char → Option (List Nat)
  | [] => some []
  | [_] => none
  | c1 :: c2 :: rest => do
    let h ← hexDigitVal c1
    let l ← hexDigitVal c2
    let tail ← hexPairsDecode rest
    pure ((16 * h + l) :: tail)

/-- Base-36 digit value of a character, as num-bigint's from_str_radix
normalizes bytes: 0-9, then a-z and A-Z starting at 10. -/
def digit36Val (c : Char) : Option Nat :=
  if '0' ≤ c ∧ c ≤ '9' then some (c.toNat - 48)
  else if 'a' ≤ c ∧ c ≤ 'z' then some (c.toNat - 97 + 10)
  else if 'A' ≤ c ∧ c ≤ 'Z' then some (c.toNat - 65 + 10)
  else none

/-- Digit normalization pass of num-bigint's from_str_radix at radix 10:
underscores are skipped, every other character must be a base-36 digit with
value below 10. -/
def decNormalize : List Char → Option (List Nat)
  | [] => some []
  | c :: cs =>
    if c = '_' then decNormalize cs
    else
      match digit36Val c with
      | some d => if d < 10 then (decNormalize cs).map (fun ds => d :: ds) else none
      | none => none

/-- Model of BigUint::parse_bytes(s, 10) (num-bigint from_str_radix at radix
10): a single leading plus sign is stripped unless another follows, the empty
string and a leading underscore fail, then the normalized digits are read as a
base-10 numeral. -/
def biguintParseDec (cs : List Char) : Option Nat :=
  let s := match cs with
    | '+' :: rest => match rest with
      | '+' :: _ => cs
      | _ => rest
    | _ => cs
  match s with
  | [] => none
  | '_' :: _ => none
  | _ => (decNormalize s).map (fun ds => ds.foldl (fun a d => a * 10 + d) 0)

/-- Model of Felt252::from_dec_str (starknet-types-core): an optional leading
minus sign, then decimal digits only; the value is reduced modulo the Stark
prime, a minus sign negating it in the field. The empty string and any
non-digit character fail. -/
def feltFromDecStr (cs : List Char) : Option Nat :=
  match cs with
  | '-' :: rest =>
    match rest with
    | [] => none
    | _ =>
      if rest.all (fun c => '0' ≤ c ∧ c ≤ '9') then
        some ((STARK_PRIME - (rest.foldl (fun a c => a * 10 + (c.toNat - 48)) 0) % STARK_PRIME) % STARK_PRIME)
      else none
  | [] => none
  | _ =>
    if cs.all (fun c => '0' ≤ c ∧ c ≤ '9') then
      some ((cs.foldl (fun a c => a * 10 + (c.toNat - 48)) 0) % STARK_PRIME)
    else none

/-- Big-endian byte list read as a natural number (BigUint::from_bytes_be). -/
def natOfBytesBE (bs : List Nat) : Nat := bs.foldl (fun a b => 256 * a + b) 0

/-- The fixed-width big-endian byte representation of a number: len bytes,
most significant first (the zero-left-padded buffer the Rust code builds). -/
def toBytesBEfixed (len n : Nat) : List Nat :=
  (List.range len).map (fun i => n / 256 ^ (len - 1 - i) % 256)

/-- Rust starts_with("0x") on the character list. -/
def hasPfx0x (cs : List Char) : Bool :=
  match cs with
  | '0' :: 'x' :: _ => true
  | _ => false

/-- Rust starts_with("0X") on the character list. -/
def hasPfx0X (cs : List Char) : Bool :=
  match cs with
  | '0' :: 'X' :: _ => true
  | _ => false

/-- strip_prefix("0x").or_else(strip_prefix("0X")).unwrap_or(input). -/
def stripPfx0x (cs : List Char) : List Char :=
  match cs with
  | '0' :: 'x' :: rest => rest
  | '0' :: 'X' :: rest => rest
  | _ => cs

/-- The byte decoding inside hex_bytes_padded, before the target-length check:
strip an optional 0x/0X marker, drop underscores, left-pad with one zero digit
when the length is odd, then hex-decode. -/
def hexDecoded (cs : List Char) : Option (List Nat) :=
  let hx := (stripPfx0x cs).filter (fun c => c ≠ '_')
  let hx := if hx.length % 2 = 1 then '0' :: hx else hx
  hexPairsDecode hx

/-- Model of hex_bytes_padded (src/src/types/mod.rs): decode the input as hex
and, when a target byte length is given, fail if the decoded bytes exceed it
and left-pad with zero bytes up to it otherwise. -/
def hex_bytes_padded (cs : List Char) (target : Option Nat) : Except String (List Nat) :=
  match hexDecoded cs with
  | none => Except.error "invalid hex"
  | some bytes =>
    match target with
    | none => Except.ok bytes
    | some t =>
      if bytes.length > t then Except.error "hex value does not fit in target type"
      else Except.ok (List.replicate (t - bytes.length) 0 ++ bytes)

/-- The hex fallback of Felt::from_any_str: decode with no target length,
then Felt252::from_bytes_be_slice, which reduces modulo the prime. -/
def feltHexPathL (cs : List Char) : Except String Nat :=
  (hex_bytes_padded cs none).map (fun bs => natOfBytesBE bs % STARK_PRIME)

/-- Felt::from_any_str (src/src/types/felt.rs): decimal first for unprefixed
input, hex otherwise or on decimal failure. -/
def feltFromAnyStrL (cs : List Char) : Except String Nat :=
  if ¬(hasPfx0x cs = true) ∧ ¬(hasPfx0X cs = true) then
    match feltFromDecStr cs with
    | some v => Except.ok v
    | none => feltHexPathL cs
  else feltHexPathL cs

/-- String-level wrapper of Felt::from_any_str. -/
def feltFromAnyStr (s : String) : Except String Nat := feltFromAnyStrL s.data

/-- The hex fallback of Uint256::from_any_str: 32-byte target, then
BigUint::from_bytes_be. -/
def uint256HexPathL (cs : List Char) : Except String Nat :=
  (hex_bytes_padded cs (some 32)).map natOfBytesBE

/-- Uint256::from_any_str (src/src/types/uint256.rs). -/
def uint256FromAnyStrL (cs : List Char) : Except String Nat :=
  if ¬(hasPfx0x cs = true) ∧ ¬(hasPfx0X cs = true) then
    match biguintParseDec cs with
    | some v => Except.ok v
    | none => uint256HexPathL cs
  else uint256HexPathL cs

/-- String-level wrapper of Uint256::from_any_str. -/
def uint256FromAnyStr (s : String) : Except String Nat := uint256FromAnyStrL s.data

/-- The hex fallback of Uint256Bits32::from_any_str: 32-byte target. -/
def b32HexPathL (cs : List Char) : Except String Nat :=
  (hex_bytes_padded cs (some 32)).map natOfBytesBE

/-- Uint256Bits32::from_any_str (src/src/types/uint256_32.rs). -/
def b32FromAnyStrL (cs : List Char) : Except String Nat :=
  if ¬(hasPfx0x cs = true) ∧ ¬(hasPfx0X cs = true) then
    match biguintParseDec cs with
    | some v => Except.ok v
    | none => b32HexPathL cs
  else b32HexPathL cs

/-- String-level wrapper of Uint256Bits32::from_any_str. -/
def b32FromAnyStr (s : String) : Except String Nat := b32FromAnyStrL s.data

/-- The hex fallback of UInt384::from_any_str: 48-byte target. -/
def uint384HexPathL (cs : List Char) : Except String Nat :=
  (hex_bytes_padded cs (some 48)).map natOfBytesBE

/-- UInt384::from_any_str (src/src/types/uint384.rs). -/
def uint384FromAnyStrL (cs : List Char) : Except String Nat :=
  if ¬(hasPfx0x cs = true) ∧ ¬(hasPfx0X cs = true) then
    match biguintParseDec cs with
    | some v => Except.ok v
    | none => uint384HexPathL cs
  else uint384HexPathL cs

/-- String-level wrapper of UInt384::from_any_str. -/
def uint384FromAnyStr (s : String) : Except String Nat := uint384FromAnyStrL s.data

/-- KeccakBytes::from_any_str (src/src/types/keccak_bytes.rs): hex decode with
no target length; the byte buffer itself is the value. -/
def keccakFromAnyStrL (cs : List Char) : Except String (List Nat) :=
  hex_bytes_padded cs none

/-- String-level wrapper of KeccakBytes::from_any_str. -/
def keccakFromAnyStr (s : String) : Except String (List Nat) := keccakFromAnyStrL s.data

/-- Decidable equality for Except results, so concrete evaluations of the
embedded functions can be settled by decide. -/
instance {ε α : Type} [DecidableEq ε] [DecidableEq α] : DecidableEq (Except ε α) := fun a b =>
  match a, b with
  | Except.ok x, Except.ok y =>
    if h : x = y then isTrue (by rw [h]) else isFalse (by intro hh; cases hh; exact h rfl)
  | Except.error x, Except.error y =>
    if h : x = y then isTrue (by rw [h]) else isFalse (by intro hh; cases hh; exact h rfl)
  | Except.ok _, Except.error _ => isFalse (by intro hh; cases hh)
  | Except.error _, Except.ok _ => isFalse (by intro hh; cases hh)

/-- Felt::from_bytes_be (src/src/types/felt.rs): panics unless the slice is
exactly 32 bytes (modelled as none), otherwise Felt252::from_bytes_be_slice,
which reduces the big-endian value modulo the prime. -/
def feltFromBytesBe (bs : List Nat) : Option Nat :=
  if bs.length ≠ 32 then none else some (natOfBytesBE bs % STARK_PRIME)

/-- Uint256::from_bytes_be (src/src/types/uint256.rs): panics when the slice
is longer than 32 bytes (modelled as none), any shorter slice is accepted and
read big-endian. -/
def uint256FromBytesBe (bs : List Nat) : Option Nat :=
  if bs.length > 32 then none else some (natOfBytesBE bs)

/-- Uint256Bits32::from_bytes_be (src/src/types/uint256_32.rs): panics unless
the slice is exactly 32 bytes (modelled as none). -/
def b32FromBytesBe (bs : List Nat) : Option Nat :=
  if bs.length ≠ 32 then none else some (natOfBytesBE bs)

/-- A relocatable cairo-vm address: segment index and offset. -/
structure Reloc where
  segment : Nat
  offset : Nat
deriving DecidableEq, Repr

/-- Address arithmetic (address + k) on a relocatable. The Rust side checks
usize overflow of the offset; offsets here are unbounded Nat, so the addition
is total. -/
def Reloc.add (a : Reloc) (k : Nat) : Reloc := ⟨a.segment, a.offset + k⟩

/-- A memory cell value: a field element or a relocatable pointer. -/
inductive MRel where
  | int : Nat → MRel
  | ptr : Nat → Nat → MRel
deriving DecidableEq, Repr

/-- The virtual machine state this layer touches: the segment counter and
the written memory cells (newest write first). -/
structure VM where
  segCount : Nat
  mem : List (Reloc × MRel)
deriving DecidableEq, Repr

/-- Lookup of a written cell. -/
def assocGet (m : List (Reloc × MRel)) (a : Reloc) : Option MRel :=
  match m with
  | [] => none
  | (b, v) :: rest => if a = b then some v else assocGet rest a

/-- vm.get_integer(address): the cell must exist and hold a field element. -/
def getInteger (vm : VM) (a : Reloc) : Except String Nat :=
  match assocGet vm.mem a with
  | some (MRel.int n) => Except.ok n
  | some (MRel.ptr _ _) => Except.error "expected integer"
  | none => Except.error "unknown memory cell"

/-- vm.insert_value(address, value): cairo-vm memory is write-once, a second
write succeeds only when it repeats the stored value. -/
def insertValue (vm : VM) (a : Reloc) (v : MRel) : Except String VM :=
  match assocGet vm.mem a with
  | none => Except.ok ⟨vm.segCount, (a, v) :: vm.mem⟩
  | some w => if w = v then Except.ok vm else Except.error "inconsistent memory"

/-- vm.add_memory_segment(): a fresh segment base and the advanced counter. -/
def addSegment (vm : VM) : Reloc × VM :=
  (⟨vm.segCount, 0⟩, ⟨vm.segCount + 1, vm.mem⟩)

/-- Felt::n_fields. -/
def feltNFields : Nat := 1

/-- Uint256::n_fields. -/
def uint256NFields : Nat := 2

/-- Uint256Bits32::n_fields. -/
def b32NFields : Nat := 8

/-- UInt384::n_fields. -/
def uint384NFields : Nat := 4

/-- KeccakBytes::n_fields (the single pointer cell). -/
def keccakNFields : Nat := 1

/-- Felt::from_memory: read one cell as a field element. -/
def feltFromMemory (vm : VM) (a : Reloc) : Except String Nat :=
  getInteger vm (a.add 0)

/-- Felt::to_memory: write the wrapped value at address, return address+1. -/
def feltToMemory (v : Nat) (vm : VM) (a : Reloc) : Except String (VM × Reloc) := do
  let vm1 ← insertValue vm (a.add 0) (MRel.int v)
  pure (vm1, a.add 1)

/-- Limb 0 of Uint256::to_limbs: value & (2^128 - 1), sent through
Felt252::from_bytes_be_slice (reduction modulo the prime). -/
def uint256Limb0 (v : Nat) : Nat := v % 2 ^ 128 % STARK_PRIME

/-- Limb 1 of Uint256::to_limbs: value >> 128, sent through
Felt252::from_bytes_be_slice (reduction modulo the prime). -/
def uint256Limb1 (v : Nat) : Nat := v / 2 ^ 128 % STARK_PRIME

/-- Uint256::to_memory: low limb at address+0, high limb at address+1. -/
def uint256ToMemory (v : Nat) (vm : VM) (a : Reloc) : Except String (VM × Reloc) := do
  let vm1 ← insertValue vm (a.add 0) (MRel.int (uint256Limb0 v))
  let vm2 ← insertValue vm1 (a.add 1) (MRel.int (uint256Limb1 v))
  pure (vm2, a.add 2)

/-- Uint256::from_memory: d1 << 128 | d0 with d0 read at address+0 and d1 at
address+1 (bitwise or, as in the Rust source). -/
def uint256FromMemory (vm : VM) (a : Reloc) : Except String Nat := do
  let d0 ← getInteger vm (a.add 0)
  let d1 ← getInteger vm (a.add 1)
  pure ((d1 <<< 128) ||| d0)

/-- Limb i of Uint256Bits32::to_limbs: (value >> ((7 - i) * 32)) masked to 32
bits, sent through Felt252::from_bytes_be_slice (a no-op below the prime). -/
def b32Limb (v i : Nat) : Nat := (v >>> ((7 - i) * 32)) % 2 ^ 32 % STARK_PRIME

/-- Uint256Bits32::to_memory: limb i at address+i for i in 0..8, so the most
significant 32-bit chunk lands at address+0; returns address+8. -/
def b32ToMemory (v : Nat) (vm : VM) (a : Reloc) : Except String (VM × Reloc) := do
  let vm0 ← insertValue vm (a.add 0) (MRel.int (b32Limb v 0))
  let vm1 ← insertValue vm0 (a.add 1) (MRel.int (b32Limb v 1))
  let vm2 ← insertValue vm1 (a.add 2) (MRel.int (b32Limb v 2))
  let vm3 ← insertValue vm2 (a.add 3) (MRel.int (b32Limb v 3))
  let vm4 ← insertValue vm3 (a.add 4) (MRel.int (b32Limb v 4))
  let vm5 ← insertValue vm4 (a.add 5) (MRel.int (b32Limb v 5))
  let vm6 ← insertValue vm5 (a.add 6) (MRel.int (b32Limb v 6))
  let vm7 ← insertValue vm6 (a.add 7) (MRel.int (b32Limb v 7))
  pure (vm7, a.add 8)

/-- Uint256Bits32::from_memory: the Rust loop runs i = 7 down to 0 doing
bigint = (bigint << 32) | cell(address + i), so the value read at address+7
ends up in the most significant position. -/
def b32FromMemory (vm : VM) (a : Reloc) : Except String Nat := do
  let v7 ← getInteger vm (a.add 7)
  let v6 ← getInteger vm (a.add 6)
  let v5 ← getInteger vm (a.add 5)
  let v4 ← getInteger vm (a.add 4)
  let v3 ← getInteger vm (a.add 3)
  let v2 ← getInteger vm (a.add 2)
  let v1 ← getInteger vm (a.add 1)
  let v0 ← getInteger vm (a.add 0)
  pure ((((((((((((((((0 <<< 32) ||| v7) <<< 32) ||| v6) <<< 32) ||| v5) <<< 32) ||| v4) <<< 32) ||| v3) <<< 32) ||| v2) <<< 32) ||| v1) <<< 32) ||| v0)

/-- The 12-byte group of the 48-byte padded buffer backing limb i of
UInt384::to_limbs: limb 0 is bytes 36..48, limb 1 bytes 24..36, limb 2 bytes
12..24, limb 3 bytes 0..12. -/
def uint384LimbBytes (v i : Nat) : List Nat :=
  ((toBytesBEfixed 48 v).drop (36 - 12 * i)).take 12

/-- UInt384::to_limbs (src/src/types/uint384.rs): the minimal big-endian byte
string of the value is left-padded to 48 bytes and cut into four 12-byte
groups, least significant group first. When the value needs more than 48
bytes the Rust expression 48 - bytes.len() underflows and the copy panics;
that case is none. The numeric bound for a minimal encoding of at most 48
bytes is value < 2^384. -/
def uint384ToLimbs (v : Nat) : Option (Nat × Nat × Nat × Nat) :=
  if v < 2 ^ 384 then
    some (natOfBytesBE (uint384LimbBytes v 0) % STARK_PRIME,
          natOfBytesBE (uint384LimbBytes v 1) % STARK_PRIME,
          natOfBytesBE (uint384LimbBytes v 2) % STARK_PRIME,
          natOfBytesBE (uint384LimbBytes v 3) % STARK_PRIME)
  else none

/-- UInt384::to_memory: limbs written at address+0 .. address+3 (least
significant group at address+0), returning address+4. The none branch of
to_limbs is a Rust panic, surfaced here as an error value. -/
def uint384ToMemory (v : Nat) (vm : VM) (a : Reloc) : Except String (VM × Reloc) :=
  match uint384ToLimbs v with
  | none => Except.error "panic: value does not fit in 48 bytes"
  | some (l0, l1, l2, l3) => do
    let vm0 ← insertValue vm (a.add 0) (MRel.int l0)
    let vm1 ← insertValue vm0 (a.add 1) (MRel.int l1)
    let vm2 ← insertValue vm1 (a.add 2) (MRel.int l2)
    let vm3 ← insertValue vm2 (a.add 3) (MRel.int l3)
    pure (vm3, a.add 4)

/-- UInt384::from_memory: d3 << 288 | d2 << 192 | d1 << 96 | d0 with d_i read
at address+i (bitwise or, as in the Rust source). -/
def uint384FromMemory (vm : VM) (a : Reloc) : Except String Nat := do
  let d0 ← getInteger vm (a.add 0)
  let d1 ← getInteger vm (a.add 1)
  let d2 ← getInteger vm (a.add 2)
  let d3 ← getInteger vm (a.add 3)
  pure ((((d3 <<< 288) ||| (d2 <<< 192)) ||| (d1 <<< 96)) ||| d0)

/-- The 8-byte chunks Rust's slice::chunks(8) yields: full chunks of eight
bytes, a final shorter chunk when the length is not a multiple of eight, and
no chunk at all for the empty buffer. -/
def chunks8 : List Nat → List (List Nat)
  | [] => []
  | b0 :: b1 :: b2 :: b3 :: b4 :: b5 :: b6 :: b7 :: rest =>
    [b0, b1, b2, b3, b4, b5, b6, b7] :: chunks8 rest
  | bs => [bs]

/-- A chunk of at most eight bytes, left-aligned into an 8-byte buffer with
trailing zero padding and read as a little-endian 64-bit integer: byte 0 is
the least significant. -/
def leU64 (chunk : List Nat) : Nat := chunk.foldr (fun b acc => b + 256 * acc) 0

/-- KeccakBytes::to_limbs (src/src/types/keccak_bytes.rs): one little-endian
64-bit word per 8-byte chunk. Felt252::from(u64) is the identity below the
prime. -/
def keccakToLimbs (bs : List Nat) : List Nat := (chunks8 bs).map leU64

/-- Consecutive writes of the limbs into the fresh segment, advancing the
offset by one per limb (the enumerate loop of KeccakBytes::to_memory). -/
def writeSeq (vm : VM) (a : Reloc) : List Nat → Except String VM
  | [] => Except.ok vm
  | l :: ls => do
    let vm1 ← insertValue vm a (MRel.int l)
    writeSeq vm1 (a.add 1) ls

/-- The cells those writes create, newest first, for stating writeSeq's
effect on the association-list memory. -/
def seqCells (a : Reloc) : List Nat → List (Reloc × MRel)
  | [] => []
  | l :: ls => seqCells (a.add 1) ls ++ [(a, MRel.int l)]

/-- KeccakBytes::to_memory: allocate a fresh segment, write the limbs to its
offsets 0.., store a pointer to the segment base at the original address and
return address+1. -/
def keccakToMemory (bs : List Nat) (vm : VM) (a : Reloc) : Except String (VM × Reloc) := do
  let p := addSegment vm
  let vm1 ← writeSeq p.2 p.1 (keccakToLimbs bs)
  let vm2 ← insertValue vm1 a (MRel.ptr p.1.segment p.1.offset)
  pure (vm2, a.add 1)

/-- A serde-serialized value as it lands in JSON-like output: a string, or a
sequence of numbers. -/
inductive SerdeOut where
  | str : String → SerdeOut
  | seq : List Nat → SerdeOut
deriving DecidableEq, Repr

/-- Lower-case hex character of a value below 16 (hex::encode). -/
def hexChar (n : Nat) : Char :=
  if n < 10 then Char.ofNat (48 + n) else Char.ofNat (87 + n)

/-- Lower-case hex encoding of a byte list (hex::encode). -/
def hexEncode (bs : List Nat) : List Char :=
  bs.foldr (fun b acc => hexChar (b / 16) :: hexChar (b % 16) :: acc) []

/-- Felt's custom Serialize impl: Felt252::to_bytes_be always yields the 32
big-endian bytes of the reduced value, hex-encoded behind 0x. -/
def feltSerialize (v : Nat) : SerdeOut :=
  SerdeOut.str (String.mk ('0' :: 'x' :: hexEncode (toBytesBEfixed 32 v)))

/-- Uint256's custom Serialize impl: the minimal big-endian bytes are copied
into a 32-byte zero buffer at offset 32 - len; when the value needs more than
32 bytes that offset underflows and Rust panics (none). -/
def uint256Serialize (v : Nat) : Option SerdeOut :=
  if v < 2 ^ 256 then
    some (SerdeOut.str (String.mk ('0' :: 'x' :: hexEncode (toBytesBEfixed 32 v))))
  else none

/-- Uint256Bits32's custom Serialize impl, identical in shape to Uint256's. -/
def b32Serialize (v : Nat) : Option SerdeOut :=
  if v < 2 ^ 256 then
    some (SerdeOut.str (String.mk ('0' :: 'x' :: hexEncode (toBytesBEfixed 32 v))))
  else none

/-- Little-endian base-2^32 digit list of a number, empty for zero: the form
num-bigint's serde implementation emits (BigUint serializes as its u32 digit
sequence). The first argument is fuel, always at least the digit count when
called with the value itself. -/
def toU32DigitsAux : Nat → Nat → List Nat
  | 0, _ => []
  | _ + 1, 0 => []
  | fuel + 1, w + 1 => ((w + 1) % 2 ^ 32) :: toU32DigitsAux fuel ((w + 1) / 2 ^ 32)

/-- num-bigint's BigUint serde form: the little-endian u32 digit sequence. -/
def toU32Digits (v : Nat) : List Nat := toU32DigitsAux v v

/-- UInt384's serialization: the struct only derives Serialize, so serde
delegates to the inner BigUint, which serializes as a sequence of u32 digits,
not as a hex string. -/
def uint384Serialize (v : Nat) : SerdeOut := SerdeOut.seq (toU32Digits v)

/-- KeccakBytes's custom Serialize impl: 0x plus the hex of the exact bytes,
no padding. -/
def keccakSerialize (bs : List Nat) : SerdeOut :=
  SerdeOut.str (String.mk ('0' :: 'x' :: hexEncode bs))

/-- An 8-cell memory for probing Uint256Bits32::from_memory: the cell at
address (0,0) holds 1 and the cells at (0,1) .. (0,7) hold 0, i.e. the limb
layout Uint256Bits32::to_limbs produces for the value 2^224 (most significant
chunk at address+0). -/
def vmC1 : VM :=
  ⟨1, [(⟨0, 0⟩, MRel.int 1), (⟨0, 1⟩, MRel.int 0), (⟨0, 2⟩, MRel.int 0), (⟨0, 3⟩, MRel.int 0),
       (⟨0, 4⟩, MRel.int 0), (⟨0, 5⟩, MRel.int 0), (⟨0, 6⟩, MRel.int 0), (⟨0, 7⟩, MRel.int 0)]⟩

theorem assocGet_cons_ne (m : List (Reloc × MRel)) (a b : Reloc) (w : MRel)
    (h : b ≠ a) : assocGet ((a, w) :: m) b = assocGet m b := by
  simp [assocGet, h]

theorem insertValue_free (vm : VM) (a : Reloc) (w : MRel)
    (h : assocGet vm.mem a = none) :
    insertValue vm a w = Except.ok ⟨vm.segCount, (a, w) :: vm.mem⟩ := by
  simp [insertValue, h]

theorem reloc_add_add (a : Reloc) (m n : Nat) : (a.add m).add n = a.add (m + n) := by
  simp [Reloc.add, Nat.add_assoc]

theorem reloc_add_ne (a : Reloc) (i j : Nat) (h : i ≠ j) : a.add i ≠ a.add j := by
  intro hh
  apply h
  have := congrArg Reloc.offset hh
  simpa [Reloc.add] using this

theorem assocGet_append_ne (xs m : List (Reloc × MRel)) (a : Reloc)
    (h : ∀ p ∈ xs, p.1 ≠ a) : assocGet (xs ++ m) a = assocGet m a := by
  induction xs with
  | nil => rfl
  | cons p rest ih =>
    have h1 : p.1 ≠ a := h p (by simp)
    have : a ≠ p.1 := fun hh => h1 hh.symm
    cases p with
    | mk q w =>
      simp only [List.cons_append, assocGet, if_neg this]
      exact ih (fun r hr => h r (by simp [hr]))

theorem seqCells_segment (ls : List Nat) : ∀ (a : Reloc) (p : Reloc × MRel),
    p ∈ seqCells a ls → p.1.segment = a.segment := by
  induction ls with
  | nil => intro a p hp; simp [seqCells] at hp
  | cons l rest ih =>
    intro a p hp
    simp only [seqCells, List.mem_append, List.mem_singleton] at hp
    cases hp with
    | inl h => exact (ih (a.add 1) p h).trans rfl
    | inr h => rw [h]

theorem seqCells_offset (ls : List Nat) : ∀ (a : Reloc) (p : Reloc × MRel),
    p ∈ seqCells a ls → a.offset ≤ p.1.offset := by
  induction ls with
  | nil => intro a p hp; simp [seqCells] at hp
  | cons l rest ih =>
    intro a p hp
    simp only [seqCells, List.mem_append, List.mem_singleton] at hp
    cases hp with
    | inl h =>
      have := ih (a.add 1) p h
      simp only [Reloc.add] at this
      omega
    | inr h => rw [h]

theorem writeSeq_ok (ls : List Nat) : ∀ (vm : VM) (seg off : Nat),
    (∀ o, off ≤ o → assocGet vm.mem ⟨seg, o⟩ = none) →
    writeSeq vm ⟨seg, off⟩ ls = Except.ok ⟨vm.segCount, seqCells ⟨seg, off⟩ ls ++ vm.mem⟩ := by
  induction ls with
  | nil => intro vm seg off h; rfl
  | cons l rest ih =>
    intro vm seg off h
    have h0 : assocGet vm.mem ⟨seg, off⟩ = none := h off (Nat.le_refl off)
    have step := insertValue_free vm ⟨seg, off⟩ (MRel.int l) h0
    have hrec : ∀ o, off + 1 ≤ o →
        assocGet ((⟨⟨seg, off⟩, MRel.int l⟩ : Reloc × MRel) :: vm.mem) ⟨seg, o⟩ = none := by
      intro o ho
      have hne : (⟨seg, o⟩ : Reloc) ≠ ⟨seg, off⟩ := by
        intro hh
        have := congrArg Reloc.offset hh
        simp at this
        omega
      rw [assocGet_cons_ne _ _ _ _ hne]
      exact h o (by omega)
    have tail := ih ⟨vm.segCount, (⟨⟨seg, off⟩, MRel.int l⟩ : Reloc × MRel) :: vm.mem⟩ seg (off + 1) hrec
    have red : writeSeq vm ⟨seg, off⟩ (l :: rest) =
        writeSeq ⟨vm.segCount, (⟨⟨seg, off⟩, MRel.int l⟩ : Reloc × MRel) :: vm.mem⟩ ⟨seg, off + 1⟩ rest := by
      simp only [writeSeq, step]
      rfl
    rw [red, tail]
    simp [seqCells, List.append_assoc, Reloc.add]

theorem hexPairsDecode_lt (cs : List Char) : ∀ bs, hexPairsDecode cs = some bs →
    ∀ b ∈ bs, b < 256 := by
  induction cs using hexPairsDecode.induct with
  | case1 =>
    intro bs h b hb
    simp [hexPairsDecode] at h
    rw [h] at hb
    simp at hb
  | case2 c =>
    intro bs h
    simp [hexPairsDecode] at h
  | case3 c1 c2 rest ih =>
    intro bs h b hb
    simp only [hexPairsDecode, Option.bind_eq_bind] at h
    match h1 : hexDigitVal c1 with
    | none => rw [h1] at h; simp at h
    | some hv =>
      match h2 : hexDigitVal c2 with
      | none => rw [h1, h2] at h; simp at h
      | some lv =>
        match h3 : hexPairsDecode rest with
        | none => rw [h1, h2, h3] at h; simp at h
        | some tl =>
          rw [h1, h2, h3] at h
          simp at h
          rw [← h] at hb
          have hv16 : hv < 16 := by
            simp only [hexDigitVal] at h1
            split at h1
            case isTrue hc =>
              have : c1.toNat ≤ 57 := hc.2
              simp at h1; omega
            case isFalse =>
              split at h1
              case isTrue hc =>
                have : c1.toNat ≤ 102 := hc.2
                have : 97 ≤ c1.toNat := hc.1
                simp at h1; omega
              case isFalse =>
                split at h1
                case isTrue hc =>
                  have : c1.toNat ≤ 70 := hc.2
                  have : 65 ≤ c1.toNat := hc.1
                  simp at h1; omega
                case isFalse => simp at h1
          have lv16 : lv < 16 := by
            simp only [hexDigitVal] at h2
            split at h2
            case isTrue hc =>
              have : c2.toNat ≤ 57 := hc.2
              simp at h2; omega
            case isFalse =>
              split at h2
              case isTrue hc =>
                have : c2.toNat ≤ 102 := hc.2
                have : 97 ≤ c2.toNat := hc.1
                simp at h2; omega
              case isFalse =>
                split at h2
                case isTrue hc =>
                  have : c2.toNat ≤ 70 := hc.2
                  have : 65 ≤ c2.toNat := hc.1
                  simp at h2; omega
                case isFalse => simp at h2
          cases hb with
          | head => omega
          | tail _ hmem => exact ih tl h3 b hmem

theorem natOfBytesBE_foldl_lt (bs : List Nat) : ∀ acc, (∀ b ∈ bs, b < 256) →
    bs.foldl (fun a b => 256 * a + b) acc < (acc + 1) * 256 ^ bs.length := by
  induction bs with
  | nil =>
    intro acc h
    simp
  | cons b rest ih =>
    intro acc h
    have hb : b < 256 := h b (by simp)
    have := ih (256 * acc + b) (fun x hx => h x (by simp [hx]))
    simp only [List.foldl_cons, List.length_cons]
    calc List.foldl (fun a b => 256 * a + b) (256 * acc + b) rest
        < (256 * acc + b + 1) * 256 ^ rest.length := this
      _ ≤ ((acc + 1) * 256) * 256 ^ rest.length := by
          apply Nat.mul_le_mul_right
          omega
      _ = (acc + 1) * 256 ^ (rest.length + 1) := by ring

theorem natOfBytesBE_lt (bs : List Nat) (h : ∀ b ∈ bs, b < 256) :
    natOfBytesBE bs < 256 ^ bs.length := by
  have := natOfBytesBE_foldl_lt bs 0 h
  simpa [natOfBytesBE] using this

theorem hex_bytes_padded_ok_shape (cs : List Char) (t : Nat) (bs : List Nat)
    (h : hex_bytes_padded cs (some t) = Except.ok bs) :
    bs.length = t ∧ ∀ b ∈ bs, b < 256 := by
  unfold hex_bytes_padded at h
  match hd : hexDecoded cs with
  | none => rw [hd] at h; cases h
  | some bytes =>
    rw [hd] at h
    simp only at h
    split at h
    case isTrue => cases h
    case isFalse hlen =>
      have hle : bytes.length ≤ t := by omega
      have hbs : bs = List.replicate (t - bytes.length) 0 ++ bytes := by
        cases h; rfl
      have hbytes : ∀ b ∈ bytes, b < 256 := by
        unfold hexDecoded at hd
        exact hexPairsDecode_lt _ _ hd
      constructor
      · rw [hbs]
        simp
        omega
      · intro b hb
        rw [hbs] at hb
        rcases List.mem_append.mp hb with hrep | hmem
        · have := List.eq_of_mem_replicate hrep
          omega
        · exact hbytes b hmem

theorem uint256HexPathL_lt (cs : List Char) (v : Nat)
    (h : uint256HexPathL cs = Except.ok v) : v < 2 ^ 256 := by
  unfold uint256HexPathL at h
  match hh : hex_bytes_padded cs (some 32) with
  | Except.error e => rw [hh] at h; cases h
  | Except.ok bs =>
    rw [hh] at h
    have hv : v = natOfBytesBE bs := by cases h; rfl
    obtain ⟨hlen, hbytes⟩ := hex_bytes_padded_ok_shape cs 32 bs hh
    have := natOfBytesBE_lt bs hbytes
    rw [hlen] at this
    rw [hv]
    calc natOfBytesBE bs < 256 ^ 32 := this
      _ = 2 ^ 256 := by norm_num

theorem uint384HexPathL_lt (cs : List Char) (v : Nat)
    (h : uint384HexPathL cs = Except.ok v) : v < 2 ^ 384 := by
  unfold uint384HexPathL at h
  match hh : hex_bytes_padded cs (some 48) with
  | Except.error e => rw [hh] at h; cases h
  | Except.ok bs =>
    rw [hh] at h
    have hv : v = natOfBytesBE bs := by cases h; rfl
    obtain ⟨hlen, hbytes⟩ := hex_bytes_padded_ok_shape cs 48 bs hh
    have := natOfBytesBE_lt bs hbytes
    rw [hlen] at this
    rw [hv]
    calc natOfBytesBE bs < 256 ^ 48 := this
      _ = 2 ^ 384 := by norm_num

theorem lor_shiftLeft_add (k : Nat) : ∀ a b : Nat, a < 2 ^ k → (b <<< k) ||| a = b * 2 ^ k + a := by
  induction k with
  | zero =>
    intro a b h
    interval_cases a
    simp [Nat.shiftLeft_eq]
  | succ k ih =>
    intro a b h
    have ha : a = Nat.bit (a % 2 = 1) (a / 2) := by
      simp [Nat.bit]
      rcases Nat.mod_two_eq_zero_or_one a with h2 | h2 <;> simp [h2] <;> omega
    have hb : b <<< (k + 1) = Nat.bit false ((b <<< k)) := by
      simp [Nat.bit, Nat.shiftLeft_eq, Nat.pow_succ]
      ring
    rw [ha, hb, Nat.lor_bit]
    have hq : a / 2 < 2 ^ k := by
      have h2 : (2 : Nat) ^ (k + 1) = 2 * 2 ^ k := by ring
      omega
    rw [ih (a / 2) b hq]
    simp only [Nat.bit, Bool.false_or]
    rcases Nat.mod_two_eq_zero_or_one a with h2 | h2 <;> simp [h2, Nat.shiftLeft_eq, Nat.pow_succ] <;> ring_nf

theorem uint256_dispatch_hexpath (cs : List Char)
    (h : hasPfx0x cs = true ∨ hasPfx0X cs = true ∨ biguintParseDec cs = none) :
    uint256FromAnyStrL cs = uint256HexPathL cs := by
  unfold uint256FromAnyStrL
  rcases h with h | h | h
  · simp [h]
  · simp [h]
  · by_cases h1 : hasPfx0x cs = true
    · simp [h1]
    · by_cases h2 : hasPfx0X cs = true
      · simp [h2]
      · simp [h1, h2, h]

theorem b32_dispatch_hexpath (cs : List Char)
    (h : hasPfx0x cs = true ∨ hasPfx0X cs = true ∨ biguintParseDec cs = none) :
    b32FromAnyStrL cs = b32HexPathL cs := by
  unfold b32FromAnyStrL
  rcases h with h | h | h
  · simp [h]
  · simp [h]
  · by_cases h1 : hasPfx0x cs = true
    · simp [h1]
    · by_cases h2 : hasPfx0X cs = true
      · simp [h2]
      · simp [h1, h2, h]

theorem uint384_dispatch_hexpath (cs : List Char)
    (h : hasPfx0x cs = true ∨ hasPfx0X cs = true ∨ biguintParseDec cs = none) :
    uint384FromAnyStrL cs = uint384HexPathL cs := by
  unfold uint384FromAnyStrL
  rcases h with h | h | h
  · simp [h]
  · simp [h]
  · by_cases h1 : hasPfx0x cs = true
    · simp [h1]
    · by_cases h2 : hasPfx0X cs = true
      · simp [h2]
      · simp [h1, h2, h]

theorem felt_dispatch_hexpath (cs : List Char)
    (h : hasPfx0x cs = true ∨ hasPfx0X cs = true ∨ feltFromDecStr cs = none) :
    feltFromAnyStrL cs = feltHexPathL cs := by
  unfold feltFromAnyStrL
  rcases h with h | h | h
  · simp [h]
  · simp [h]
  · by_cases h1 : hasPfx0x cs = true
    · simp [h1]
    · by_cases h2 : hasPfx0X cs = true
      · simp [h2]
      · simp [h1, h2, h]

theorem felt_roundtrip_memory (v : Nat) (vm : VM) (a : Reloc)
    (h : assocGet vm.mem (a.add 0) = none) :
    (feltToMemory v vm a).bind (fun p => feltFromMemory p.1 a) = Except.ok v := by
  rw [feltToMemory, insertValue_free vm (a.add 0) (MRel.int v) h]
  show feltFromMemory ⟨vm.segCount, (a.add 0, MRel.int v) :: vm.mem⟩ a = Except.ok v
  simp [feltFromMemory, getInteger, assocGet]

theorem exceptOkBind {ε α β : Type} (x : α) (f : α → Except ε β) :
    Except.bind (Except.ok x) f = f x := rfl

theorem exceptOkSeqBind {ε α β : Type} (x : α) (f : α → Except ε β) :
    (Except.ok x : Except ε α) >>= f = f x := rfl

theorem uint256_roundtrip_memory (v : Nat) (vm : VM) (a : Reloc)
    (hv : v < 2 ^ 256)
    (h0 : assocGet vm.mem (a.add 0) = none) (h1 : assocGet vm.mem (a.add 1) = none) :
    (uint256ToMemory v vm a).bind (fun p => uint256FromMemory p.1 a) = Except.ok v := by
  have hne : (a.add 1) ≠ (a.add 0) := reloc_add_ne a 1 0 (by omega)
  have hne2 : (a.add 0) ≠ (a.add 1) := fun hh => hne hh.symm
  have hp : (2 : Nat) ^ 128 < STARK_PRIME := by norm_num [STARK_PRIME]
  have hm : v % 2 ^ 128 < 2 ^ 128 := Nat.mod_lt _ (by norm_num)
  have hd : v / 2 ^ 128 < 2 ^ 128 := Nat.div_lt_of_lt_mul (by
    calc v < 2 ^ 256 := hv
      _ = 2 ^ 128 * 2 ^ 128 := by norm_num)
  have he0 : uint256Limb0 v = v % 2 ^ 128 := by
    unfold uint256Limb0
    exact Nat.mod_eq_of_lt (by omega)
  have he1 : uint256Limb1 v = v / 2 ^ 128 := by
    unfold uint256Limb1
    exact Nat.mod_eq_of_lt (by omega)
  have h1b : assocGet ((a.add 0, MRel.int (uint256Limb0 v)) :: vm.mem) (a.add 1) = none := by
    rw [assocGet_cons_ne _ _ _ _ hne]
    exact h1
  have enc : uint256ToMemory v vm a = Except.ok
      (⟨vm.segCount, (a.add 1, MRel.int (uint256Limb1 v)) ::
        (a.add 0, MRel.int (uint256Limb0 v)) :: vm.mem⟩, a.add 2) := by
    unfold uint256ToMemory
    rw [insertValue_free vm (a.add 0) _ h0, exceptOkSeqBind]
    rw [insertValue_free _ (a.add 1) _ h1b, exceptOkSeqBind]
    rfl
  rw [enc, exceptOkBind]
  unfold uint256FromMemory
  rw [show getInteger ⟨vm.segCount, (a.add 1, MRel.int (uint256Limb1 v)) ::
        (a.add 0, MRel.int (uint256Limb0 v)) :: vm.mem⟩ (a.add 0)
      = Except.ok (uint256Limb0 v) from by simp [getInteger, assocGet, hne2], exceptOkSeqBind]
  rw [show getInteger ⟨vm.segCount, (a.add 1, MRel.int (uint256Limb1 v)) ::
        (a.add 0, MRel.int (uint256Limb0 v)) :: vm.mem⟩ (a.add 1)
      = Except.ok (uint256Limb1 v) from by simp [getInteger, assocGet], exceptOkSeqBind]
  rw [he0, he1, lor_shiftLeft_add 128 _ _ hm]
  exact congrArg Except.ok (Nat.div_add_mod' v (2 ^ 128))

theorem exceptPureEq {e a : Type} (x : a) : (pure x : Except e a) = Except.ok x := rfl

theorem felt_to_memory_shape (v : Nat) (vm : VM) (a : Reloc)
    (h : assocGet vm.mem (a.add 0) = none) :
    feltToMemory v vm a =
      Except.ok (⟨vm.segCount, (a.add 0, MRel.int v) :: vm.mem⟩, a.add 1) := by
  simp [feltToMemory, insertValue, h, exceptOkSeqBind, exceptPureEq]

theorem uint256_to_memory_shape (v : Nat) (vm : VM) (a : Reloc)
    (h0 : assocGet vm.mem (a.add 0) = none) (h1 : assocGet vm.mem (a.add 1) = none) :
    uint256ToMemory v vm a = Except.ok
      (⟨vm.segCount, (a.add 1, MRel.int (uint256Limb1 v)) ::
        (a.add 0, MRel.int (uint256Limb0 v)) :: vm.mem⟩, a.add 2) := by
  have hne : ∀ i j : Nat, i ≠ j → (a.add i = a.add j) = False :=
    fun i j hij => eq_false (reloc_add_ne a i j hij)
  simp [uint256ToMemory, insertValue, assocGet, hne, h0, h1, exceptOkSeqBind, exceptPureEq]

theorem b32_to_memory_shape (v : Nat) (vm : VM) (a : Reloc)
    (h : ∀ i, i < 8 → assocGet vm.mem (a.add i) = none) :
    b32ToMemory v vm a = Except.ok
      (⟨vm.segCount,
        (a.add 7, MRel.int (b32Limb v 7)) :: (a.add 6, MRel.int (b32Limb v 6)) ::
        (a.add 5, MRel.int (b32Limb v 5)) :: (a.add 4, MRel.int (b32Limb v 4)) ::
        (a.add 3, MRel.int (b32Limb v 3)) :: (a.add 2, MRel.int (b32Limb v 2)) ::
        (a.add 1, MRel.int (b32Limb v 1)) :: (a.add 0, MRel.int (b32Limb v 0)) :: vm.mem⟩,
       a.add 8) := by
  have hne : ∀ i j : Nat, i ≠ j → (a.add i = a.add j) = False :=
    fun i j hij => eq_false (reloc_add_ne a i j hij)
  have e0 := h 0 (by omega)
  have e1 := h 1 (by omega)
  have e2 := h 2 (by omega)
  have e3 := h 3 (by omega)
  have e4 := h 4 (by omega)
  have e5 := h 5 (by omega)
  have e6 := h 6 (by omega)
  have e7 := h 7 (by omega)
  simp [b32ToMemory, insertValue, assocGet, hne, e0, e1, e2, e3, e4, e5, e6, e7,
    exceptOkSeqBind, exceptPureEq]

theorem uint384_to_memory_shape (v : Nat) (vm : VM) (a : Reloc)
    (hv : v < 2 ^ 384)
    (h : ∀ i, i < 4 → assocGet vm.mem (a.add i) = none) :
    uint384ToMemory v vm a = Except.ok
      (⟨vm.segCount,
        (a.add 3, MRel.int (natOfBytesBE (uint384LimbBytes v 3) % STARK_PRIME)) ::
        (a.add 2, MRel.int (natOfBytesBE (uint384LimbBytes v 2) % STARK_PRIME)) ::
        (a.add 1, MRel.int (natOfBytesBE (uint384LimbBytes v 1) % STARK_PRIME)) ::
        (a.add 0, MRel.int (natOfBytesBE (uint384LimbBytes v 0) % STARK_PRIME)) :: vm.mem⟩,
       a.add 4) := by
  have hne : ∀ i j : Nat, i ≠ j → (a.add i = a.add j) = False :=
    fun i j hij => eq_false (reloc_add_ne a i j hij)
  have e0 := h 0 (by omega)
  have e1 := h 1 (by omega)
  have e2 := h 2 (by omega)
  have e3 := h 3 (by omega)
  unfold uint384ToMemory uint384ToLimbs
  rw [if_pos hv]
  simp [insertValue, assocGet, hne, e0, e1, e2, e3, exceptOkSeqBind, exceptPureEq]

theorem keccak_to_memory_shape (bs : List Nat) (vm : VM) (a : Reloc)
    (hfresh : ∀ o, assocGet vm.mem ⟨vm.segCount, o⟩ = none)
    (hseg : a.segment ≠ vm.segCount)
    (ha : assocGet vm.mem a = none) :
    keccakToMemory bs vm a = Except.ok
      (⟨vm.segCount + 1, (a, MRel.ptr vm.segCount 0) ::
        (seqCells ⟨vm.segCount, 0⟩ (keccakToLimbs bs) ++ vm.mem)⟩, a.add 1) := by
  have hw := writeSeq_ok (keccakToLimbs bs) ⟨vm.segCount + 1, vm.mem⟩ vm.segCount 0
    (fun o _ => hfresh o)
  have hmemA : assocGet (seqCells ⟨vm.segCount, 0⟩ (keccakToLimbs bs) ++ vm.mem) a = none := by
    rw [assocGet_append_ne]
    · exact ha
    · intro p hp hpa
      have hps := seqCells_segment (keccakToLimbs bs) ⟨vm.segCount, 0⟩ p hp
      rw [hpa] at hps
      exact hseg hps
  simp [keccakToMemory, addSegment, hw, insertValue, hmemA, exceptOkSeqBind, exceptPureEq]

/-- C1: the claim says Uint256Bits32::from_memory treats the cell at address+0
as the most significant 32-bit chunk and address+7 as the least significant.
Evaluating the code at the failing input: with cell (0,0) = 1 and cells
(0,1)..(0,7) = 0 (the encoding to_limbs produces for 2^224), from_memory
returns 1, not 2^224 — the loop folds index 7 first, so address+7 is the most
significant chunk and address+0 the least. -/
theorem c1_b32_decode_failing_input :
    b32FromMemory vmC1 ⟨0, 0⟩ = Except.ok 1 ∧
    ¬ b32FromMemory vmC1 ⟨0, 0⟩ = Except.ok (2 ^ 224) := by
  decide

/-- C2: the claimed memory round-trip fails for Uint256Bits32: encoding the
value 1 at address (0,0) of an empty machine and decoding at the same address
yields 2^224, because to_memory writes the most significant chunk at
address+0 while from_memory reads address+7 as most significant. -/
theorem c2_b32_roundtrip_failing_input :
    (b32ToMemory 1 ⟨1, []⟩ ⟨0, 0⟩).bind (fun p => b32FromMemory p.1 ⟨0, 0⟩) =
      Except.ok (2 ^ 224) ∧ (2 : Nat) ^ 224 ≠ 1 := by
  decide

/-- C3: the claim says every value type serializes as 0x plus lower-case hex
padded to its fixed byte width. Felt, Uint256, Uint256Bits32 and KeccakBytes
do (their custom Serialize impls, checked here at 255 and at the bytes
ab cd), but UInt384 only derives Serialize, so serde delegates to the inner
BigUint, which serializes the value 255 as the u32 digit sequence [255] —
not as a string at all, contradicting the repository's own
test_uint384_serialize_hex. -/
theorem c3_uint384_serialize_failing_input :
    uint384Serialize 255 = SerdeOut.seq [255] ∧
    uint384Serialize 255 ≠ SerdeOut.str
      "0x0000000000000000000000000000000000000000000000000000000000000000000000000000000000000000000000ff" ∧
    feltSerialize 255 =
      SerdeOut.str "0x00000000000000000000000000000000000000000000000000000000000000ff" ∧
    uint256Serialize 255 =
      some (SerdeOut.str "0x00000000000000000000000000000000000000000000000000000000000000ff") ∧
    b32Serialize 255 =
      some (SerdeOut.str "0x00000000000000000000000000000000000000000000000000000000000000ff") ∧
    keccakSerialize [171, 205] = SerdeOut.str "0xabcd" := by
  refine ⟨by decide, by decide, by decide, by decide, by decide, by decide⟩

set_option maxRecDepth 4000 in
/-- C4 counterexample: the decimal string for 2^256 (which needs 257 bits)
parses successfully as a Uint256 — the decimal branch of from_any_str
performs no bound check, so parse-time bound enforcement does not cover every
input form. -/
theorem c4_counterexample :
    uint256FromAnyStr
      "115792089237316195423570985008687907853269984665640564039457584007913129639936" =
      Except.ok (2 ^ 256) ∧ ¬ (2 : Nat) ^ 256 < 2 ^ 256 := by
  exact ⟨by decide, by omega⟩

/-- C4 amended: bound enforcement holds exactly on the hex path. For every
input that is 0x/0X-prefixed or that the decimal parser rejects, a successful
parse is bounded: below 2^256 for Uint256 and Uint256Bits32, below 2^384 for
UInt384. (Unprefixed decimal-parseable input bypasses the bound.) -/
theorem c4_amended_hexpath_bound :
    (∀ (cs : List Char) (v : Nat),
      (hasPfx0x cs = true ∨ hasPfx0X cs = true ∨ biguintParseDec cs = none) →
      uint256FromAnyStrL cs = Except.ok v → v < 2 ^ 256) ∧
    (∀ (cs : List Char) (v : Nat),
      (hasPfx0x cs = true ∨ hasPfx0X cs = true ∨ biguintParseDec cs = none) →
      b32FromAnyStrL cs = Except.ok v → v < 2 ^ 256) ∧
    (∀ (cs : List Char) (v : Nat),
      (hasPfx0x cs = true ∨ hasPfx0X cs = true ∨ biguintParseDec cs = none) →
      uint384FromAnyStrL cs = Except.ok v → v < 2 ^ 384) := by
  refine ⟨?_, ?_, ?_⟩
  · intro cs v hd hok
    rw [uint256_dispatch_hexpath cs hd] at hok
    exact uint256HexPathL_lt cs v hok
  · intro cs v hd hok
    rw [b32_dispatch_hexpath cs hd] at hok
    exact uint256HexPathL_lt cs v hok
  · intro cs v hd hok
    rw [uint384_dispatch_hexpath cs hd] at hok
    exact uint384HexPathL_lt cs v hok

/-- C4 witness: the amended bound at the concrete prefixed inputs 0x05 and
0x07. -/
theorem c4_witness : (5 : Nat) < 2 ^ 256 ∧ (7 : Nat) < 2 ^ 384 :=
  ⟨c4_amended_hexpath_bound.1 "0x05".data 5 (Or.inl rfl) (by decide),
   c4_amended_hexpath_bound.2.2 "0x07".data 7 (Or.inl rfl) (by decide)⟩

set_option maxRecDepth 4000 in
/-- C5 counterexample: the string of 66 nines is a hex string (no prefix)
whose decoded byte length is 33 > 32 — as hex it overflows the Uint256
target, as the third conjunct shows — yet parseFromText succeeds, returning
the decimal value 10^66 - 1, because the all-digit input is captured by the
decimal branch first. -/
theorem c5_counterexample :
    uint256FromAnyStrL (List.replicate 66 '9') = Except.ok (10 ^ 66 - 1) ∧
    hexDecoded (List.replicate 66 '9') = some (List.replicate 33 153) ∧
    hex_bytes_padded (List.replicate 66 '9') (some 32) =
      Except.error "hex value does not fit in target type" := by
  refine ⟨by decide, by decide, by decide⟩

/-- C5 amended: the fixed-width rule holds for every input that reaches the
hex decoder: decoded byte length over the target fails with the overflow
error, decoded length at most the target is left-padded with zero bytes to
exactly the target; and for 0x/0X-prefixed or non-decimal input, from_any_str
is exactly hex_bytes_padded at the type's target (32 bytes for Uint256 and
Uint256Bits32, 48 for UInt384) followed by the big-endian read. Unprefixed
all-decimal strings take the decimal branch instead. -/
theorem c5_amended_hexpath_enforcement :
    (∀ (cs : List Char) (t : Nat) (bs : List Nat), hexDecoded cs = some bs →
      bs.length > t →
      hex_bytes_padded cs (some t) = Except.error "hex value does not fit in target type") ∧
    (∀ (cs : List Char) (t : Nat) (bs : List Nat), hexDecoded cs = some bs →
      bs.length ≤ t →
      hex_bytes_padded cs (some t) = Except.ok (List.replicate (t - bs.length) 0 ++ bs)) ∧
    (∀ cs : List Char,
      (hasPfx0x cs = true ∨ hasPfx0X cs = true ∨ biguintParseDec cs = none) →
      uint256FromAnyStrL cs = (hex_bytes_padded cs (some 32)).map natOfBytesBE ∧
      b32FromAnyStrL cs = (hex_bytes_padded cs (some 32)).map natOfBytesBE ∧
      uint384FromAnyStrL cs = (hex_bytes_padded cs (some 48)).map natOfBytesBE) := by
  refine ⟨?_, ?_, ?_⟩
  · intro cs t bs hd hlen
    unfold hex_bytes_padded
    rw [hd]
    simp only [if_pos hlen]
  · intro cs t bs hd hlen
    unfold hex_bytes_padded
    rw [hd]
    simp only
    rw [if_neg (by omega)]
  · intro cs hd
    exact ⟨uint256_dispatch_hexpath cs hd, b32_dispatch_hexpath cs hd,
      uint384_dispatch_hexpath cs hd⟩

/-- C5 witness: the amended rule at concrete inputs: 0xaabb decodes to two
bytes, overflows a 1-byte target, left-pads to a 3-byte target, and 0xaa
routes through the 32-byte hex path for Uint256. -/
theorem c5_witness :
    hex_bytes_padded "0xaabb".data (some 1) =
      Except.error "hex value does not fit in target type" ∧
    hex_bytes_padded "0xaabb".data (some 3) = Except.ok [0, 170, 187] ∧
    uint256FromAnyStrL "0xaa".data = (hex_bytes_padded "0xaa".data (some 32)).map natOfBytesBE :=
  ⟨c5_amended_hexpath_enforcement.1 "0xaabb".data 1 [170, 187] (by decide) (by decide),
   c5_amended_hexpath_enforcement.2.1 "0xaabb".data 3 [170, 187] (by decide) (by decide),
   (c5_amended_hexpath_enforcement.2.2 "0xaa".data (Or.inl rfl)).1⟩

/-- C6: encoding a 9-byte KeccakBytes buffer packs exactly 2 words — the
first is the little-endian 64-bit read of bytes 0..8, the second is the last
byte alone (its upper 56 bits zero, below 2^8) — writes them at offsets 0 and
1 of the freshly allocated segment, stores the segment base as a pointer in
the single cell at the original address, and returns address + 1. -/
theorem c6_keccak_nine_byte_packing (b0 b1 b2 b3 b4 b5 b6 b7 b8 : Nat) (vm : VM) (a : Reloc)
    (hb : b8 < 256)
    (hfresh : ∀ o, assocGet vm.mem ⟨vm.segCount, o⟩ = none)
    (hseg : a.segment ≠ vm.segCount)
    (ha : assocGet vm.mem a = none) :
    keccakToLimbs [b0, b1, b2, b3, b4, b5, b6, b7, b8] =
      [b0 + 256 * (b1 + 256 * (b2 + 256 * (b3 + 256 * (b4 + 256 * (b5 + 256 * (b6 + 256 * b7)))))),
       b8] ∧
    (keccakToLimbs [b0, b1, b2, b3, b4, b5, b6, b7, b8]).length = 2 ∧
    b8 < 2 ^ 8 ∧
    keccakToMemory [b0, b1, b2, b3, b4, b5, b6, b7, b8] vm a = Except.ok
      (⟨vm.segCount + 1,
        (a, MRel.ptr vm.segCount 0) ::
        (⟨vm.segCount, 1⟩, MRel.int b8) ::
        (⟨vm.segCount, 0⟩, MRel.int
          (b0 + 256 * (b1 + 256 * (b2 + 256 * (b3 + 256 * (b4 + 256 * (b5 + 256 * (b6 + 256 * b7)))))))) ::
        vm.mem⟩,
       a.add 1) := by
  refine ⟨rfl, rfl, ?_, ?_⟩
  · have h28 : (2 : Nat) ^ 8 = 256 := by norm_num
    omega
  · exact keccak_to_memory_shape [b0, b1, b2, b3, b4, b5, b6, b7, b8] vm a hfresh hseg ha

/-- C6 witness: the packing at the concrete buffer 01 02 03 04 05 06 07 08 09
written at address (0,0) of a machine with one empty segment. -/
theorem c6_witness :
    keccakToLimbs [1, 2, 3, 4, 5, 6, 7, 8, 9] = [578437695752307201, 9] ∧
    (keccakToLimbs [1, 2, 3, 4, 5, 6, 7, 8, 9]).length = 2 ∧
    (9 : Nat) < 2 ^ 8 ∧
    keccakToMemory [1, 2, 3, 4, 5, 6, 7, 8, 9] ⟨1, []⟩ ⟨0, 0⟩ = Except.ok
      (⟨2, [(⟨0, 0⟩, MRel.ptr 1 0), (⟨1, 1⟩, MRel.int 9),
            (⟨1, 0⟩, MRel.int 578437695752307201)]⟩, ⟨0, 1⟩) :=
  c6_keccak_nine_byte_packing 1 2 3 4 5 6 7 8 9 ⟨1, []⟩ ⟨0, 0⟩ (by decide)
    (fun _ => rfl) (by decide) rfl

/-- C7: every to_memory writes exactly n_fields cells at consecutive
addresses from the given address (for KeccakBytes a single pointer cell at
the address, the words going to the fresh segment) and returns
address + n_fields: +1 for Felt and KeccakBytes, +2 for Uint256, +8 for
Uint256Bits32, +4 for UInt384 (whose value must fit 48 bytes, else the Rust
code panics before writing). Each conjunct gives the exact final machine:
the new cells and nothing else. -/
theorem c7_encode_cell_count_and_return :
    (∀ (v : Nat) (vm : VM) (a : Reloc), assocGet vm.mem (a.add 0) = none →
      feltToMemory v vm a =
        Except.ok (⟨vm.segCount, (a.add 0, MRel.int v) :: vm.mem⟩, a.add feltNFields)) ∧
    (∀ (v : Nat) (vm : VM) (a : Reloc),
      assocGet vm.mem (a.add 0) = none → assocGet vm.mem (a.add 1) = none →
      uint256ToMemory v vm a = Except.ok
        (⟨vm.segCount, (a.add 1, MRel.int (uint256Limb1 v)) ::
          (a.add 0, MRel.int (uint256Limb0 v)) :: vm.mem⟩, a.add uint256NFields)) ∧
    (∀ (v : Nat) (vm : VM) (a : Reloc), (∀ i, i < 8 → assocGet vm.mem (a.add i) = none) →
      b32ToMemory v vm a = Except.ok
        (⟨vm.segCount,
          (a.add 7, MRel.int (b32Limb v 7)) :: (a.add 6, MRel.int (b32Limb v 6)) ::
          (a.add 5, MRel.int (b32Limb v 5)) :: (a.add 4, MRel.int (b32Limb v 4)) ::
          (a.add 3, MRel.int (b32Limb v 3)) :: (a.add 2, MRel.int (b32Limb v 2)) ::
          (a.add 1, MRel.int (b32Limb v 1)) :: (a.add 0, MRel.int (b32Limb v 0)) :: vm.mem⟩,
         a.add b32NFields)) ∧
    (∀ (v : Nat) (vm : VM) (a : Reloc), v < 2 ^ 384 →
      (∀ i, i < 4 → assocGet vm.mem (a.add i) = none) →
      uint384ToMemory v vm a = Except.ok
        (⟨vm.segCount,
          (a.add 3, MRel.int (natOfBytesBE (uint384LimbBytes v 3) % STARK_PRIME)) ::
          (a.add 2, MRel.int (natOfBytesBE (uint384LimbBytes v 2) % STARK_PRIME)) ::
          (a.add 1, MRel.int (natOfBytesBE (uint384LimbBytes v 1) % STARK_PRIME)) ::
          (a.add 0, MRel.int (natOfBytesBE (uint384LimbBytes v 0) % STARK_PRIME)) :: vm.mem⟩,
         a.add uint384NFields)) ∧
    (∀ (bs : List Nat) (vm : VM) (a : Reloc),
      (∀ o, assocGet vm.mem ⟨vm.segCount, o⟩ = none) → a.segment ≠ vm.segCount →
      assocGet vm.mem a = none →
      keccakToMemory bs vm a = Except.ok
        (⟨vm.segCount + 1, (a, MRel.ptr vm.segCount 0) ::
          (seqCells ⟨vm.segCount, 0⟩ (keccakToLimbs bs) ++ vm.mem)⟩, a.add keccakNFields)) :=
  ⟨fun v vm a h => felt_to_memory_shape v vm a h,
   fun v vm a h0 h1 => uint256_to_memory_shape v vm a h0 h1,
   fun v vm a h => b32_to_memory_shape v vm a h,
   fun v vm a hv h => uint384_to_memory_shape v vm a hv h,
   fun bs vm a hf hs ha => keccak_to_memory_shape bs vm a hf hs ha⟩

/-- C7 witness: the five encoders at concrete values, an empty machine with
one segment and address (0,5): each returns address + n_fields and the
expected cells. -/
theorem c7_witness :
    feltToMemory 9 ⟨1, []⟩ ⟨0, 5⟩ = Except.ok (⟨1, [(⟨0, 5⟩, MRel.int 9)]⟩, ⟨0, 6⟩) ∧
    uint256ToMemory 5 ⟨1, []⟩ ⟨0, 5⟩ =
      Except.ok (⟨1, [(⟨0, 6⟩, MRel.int 0), (⟨0, 5⟩, MRel.int 5)]⟩, ⟨0, 7⟩) ∧
    b32ToMemory 1 ⟨1, []⟩ ⟨0, 5⟩ = Except.ok
      (⟨1, [(⟨0, 12⟩, MRel.int 1), (⟨0, 11⟩, MRel.int 0), (⟨0, 10⟩, MRel.int 0),
            (⟨0, 9⟩, MRel.int 0), (⟨0, 8⟩, MRel.int 0), (⟨0, 7⟩, MRel.int 0),
            (⟨0, 6⟩, MRel.int 0), (⟨0, 5⟩, MRel.int 0)]⟩, ⟨0, 13⟩) ∧
    uint384ToMemory 7 ⟨1, []⟩ ⟨0, 5⟩ = Except.ok
      (⟨1, [(⟨0, 8⟩, MRel.int 0), (⟨0, 7⟩, MRel.int 0), (⟨0, 6⟩, MRel.int 0),
            (⟨0, 5⟩, MRel.int 7)]⟩, ⟨0, 9⟩) ∧
    keccakToMemory [1, 2] ⟨1, []⟩ ⟨0, 5⟩ = Except.ok
      (⟨2, [(⟨0, 5⟩, MRel.ptr 1 0), (⟨1, 0⟩, MRel.int 513)]⟩, ⟨0, 6⟩) :=
  ⟨c7_encode_cell_count_and_return.1 9 ⟨1, []⟩ ⟨0, 5⟩ rfl,
   c7_encode_cell_count_and_return.2.1 5 ⟨1, []⟩ ⟨0, 5⟩ rfl rfl,
   c7_encode_cell_count_and_return.2.2.1 1 ⟨1, []⟩ ⟨0, 5⟩ (fun i _ => rfl),
   c7_encode_cell_count_and_return.2.2.2.1 7 ⟨1, []⟩ ⟨0, 5⟩ (by norm_num)
     (fun i _ => rfl),
   c7_encode_cell_count_and_return.2.2.2.2 [1, 2] ⟨1, []⟩ ⟨0, 5⟩ (fun _ => rfl)
     (by decide) rfl⟩

/-- C8: decimal versus hex dispatch, for Felt and the three integer types:
"123" (no marker) parses as decimal 123, "0x123" as hex 291, "FF" (not valid
decimal) falls back to hex 255; and for any 0x/0X-prefixed input the decimal
branch is skipped entirely — from_any_str is exactly the hex path. -/
theorem c8_decimal_hex_dispatch :
    feltFromAnyStr "123" = Except.ok 123 ∧
    feltFromAnyStr "0x123" = Except.ok 291 ∧
    feltFromAnyStr "FF" = Except.ok 255 ∧
    uint256FromAnyStr "123" = Except.ok 123 ∧
    uint256FromAnyStr "0x123" = Except.ok 291 ∧
    uint256FromAnyStr "FF" = Except.ok 255 ∧
    b32FromAnyStr "123" = Except.ok 123 ∧
    b32FromAnyStr "0x123" = Except.ok 291 ∧
    b32FromAnyStr "FF" = Except.ok 255 ∧
    uint384FromAnyStr "123" = Except.ok 123 ∧
    uint384FromAnyStr "0x123" = Except.ok 291 ∧
    uint384FromAnyStr "FF" = Except.ok 255 ∧
    (∀ cs : List Char, hasPfx0x cs = true ∨ hasPfx0X cs = true →
      feltFromAnyStrL cs = feltHexPathL cs ∧
      uint256FromAnyStrL cs = uint256HexPathL cs ∧
      b32FromAnyStrL cs = b32HexPathL cs ∧
      uint384FromAnyStrL cs = uint384HexPathL cs) := by
  refine ⟨by decide, by decide, by decide, by decide, by decide, by decide, by decide,
    by decide, by decide, by decide, by decide, by decide, ?_⟩
  intro cs h
  have hor3 : hasPfx0x cs = true ∨ hasPfx0X cs = true ∨ feltFromDecStr cs = none := by
    rcases h with h | h
    · exact Or.inl h
    · exact Or.inr (Or.inl h)
  have hor3b : hasPfx0x cs = true ∨ hasPfx0X cs = true ∨ biguintParseDec cs = none := by
    rcases h with h | h
    · exact Or.inl h
    · exact Or.inr (Or.inl h)
  exact ⟨felt_dispatch_hexpath cs hor3, uint256_dispatch_hexpath cs hor3b,
    b32_dispatch_hexpath cs hor3b, uint384_dispatch_hexpath cs hor3b⟩

/-- C8 witness: the dispatch conjunct at the concrete prefixed input 0x1:
every parser routes it through its hex path. -/
theorem c8_witness :
    feltFromAnyStrL "0x1".data = feltHexPathL "0x1".data ∧
    uint256FromAnyStrL "0x1".data = uint256HexPathL "0x1".data ∧
    b32FromAnyStrL "0x1".data = b32HexPathL "0x1".data ∧
    uint384FromAnyStrL "0x1".data = uint384HexPathL "0x1".data :=
  c8_decimal_hex_dispatch.2.2.2.2.2.2.2.2.2.2.2.2 "0x1".data (Or.inl rfl)

/-- C9: the panic preconditions of from_bytes_be: Felt and Uint256Bits32
accept exactly 32-byte slices (isSome exactly when the length is 32), while
Uint256 accepts any slice of at most 32 bytes — and on those it returns the
big-endian (zero-extending) value, no panic reachable. -/
theorem c9_from_bytes_be_preconditions :
    (∀ bs : List Nat, (feltFromBytesBe bs).isSome = true ↔ bs.length = 32) ∧
    (∀ bs : List Nat, (b32FromBytesBe bs).isSome = true ↔ bs.length = 32) ∧
    (∀ bs : List Nat, (uint256FromBytesBe bs).isSome = true ↔ bs.length ≤ 32) ∧
    (∀ bs : List Nat, bs.length ≤ 32 → uint256FromBytesBe bs = some (natOfBytesBE bs)) := by
  refine ⟨?_, ?_, ?_, ?_⟩
  · intro bs
    unfold feltFromBytesBe
    by_cases h : bs.length = 32
    · simp [h]
    · simp [h]
  · intro bs
    unfold b32FromBytesBe
    by_cases h : bs.length = 32
    · simp [h]
    · simp [h]
  · intro bs
    unfold uint256FromBytesBe
    by_cases h : bs.length > 32
    · simp only [if_pos h, Option.isSome_none]
      constructor
      · intro hh
        cases hh
      · intro hh
        omega
    · simp only [if_neg h, Option.isSome_some]
      constructor
      · intro _
        omega
      · intro _
        trivial
  · intro bs h
    unfold uint256FromBytesBe
    rw [if_neg (by omega)]

/-- C9 witness: a 32-byte slice is accepted by Felt and Uint256Bits32, and a
2-byte slice by Uint256, which reads it big-endian: [1, 2] gives 258. -/
theorem c9_witness :
    (feltFromBytesBe (List.replicate 32 7)).isSome = true ∧
    (b32FromBytesBe (List.replicate 32 7)).isSome = true ∧
    (uint256FromBytesBe [1, 2]).isSome = true ∧
    uint256FromBytesBe [1, 2] = some 258 :=
  ⟨(c9_from_bytes_be_preconditions.1 (List.replicate 32 7)).mpr (by decide),
   (c9_from_bytes_be_preconditions.2.1 (List.replicate 32 7)).mpr (by decide),
   (c9_from_bytes_be_preconditions.2.2.1 [1, 2]).mpr (by decide),
   c9_from_bytes_be_preconditions.2.2.2 [1, 2] (by decide)⟩

/-- C10: parsing the empty string succeeds for every type: the decimal
attempt fails, the empty hex string decodes to zero bytes, zero-padding (or
the prime reduction for Felt) yields the zero value — and the empty byte
buffer for KeccakBytes. -/
theorem c10_empty_string_parse :
    feltFromAnyStr "" = Except.ok 0 ∧
    uint256FromAnyStr "" = Except.ok 0 ∧
    b32FromAnyStr "" = Except.ok 0 ∧
    uint384FromAnyStr "" = Except.ok 0 ∧
    keccakFromAnyStr "" = Except.ok [] := by
  refine ⟨by decide, by decide, by decide, by decide, by decide⟩
